import Mathlib

/-!
Verification of the Svg-Shapes-Pack template renderer (src/index.ts).

Strings are modelled as lists of characters.  The JavaScript regex and
string-replace operations used by the source are embedded as executable
functions on character lists, and the process-wide gradient counter is
threaded explicitly through each operation.
-/

set_option maxHeartbeats 1000000

/-- Character-list strings; the embedding of JS strings. -/
abbrev Str := List Char

/-- Conversion from a Lean string literal to the character-list model. -/
def str (s : String) : Str := s.data

/-- Substring test: embedding of JS String.prototype.includes. -/
def containsSub (pat : Str) : Str → Bool
  | [] => pat.isPrefixOf []
  | c :: cs => pat.isPrefixOf (c :: cs) || containsSub pat cs

/-- Number of (possibly overlapping) occurrences of a pattern in a string:
the number of positions at which the pattern matches. -/
def countOccur (pat : Str) : Str → Nat
  | [] => if pat.isPrefixOf [] then 1 else 0
  | c :: cs => (if pat.isPrefixOf (c :: cs) then 1 else 0) + countOccur pat cs

/-- Worker for replaceAll: while the skip count is positive the chars of an
already-matched pattern occurrence are consumed without being copied;
at skip count zero the scan resumes. -/
def replaceAllAux (pat rep : Str) : Nat → Str → Str
  | _, [] => []
  | Nat.succ skip, _ :: cs => replaceAllAux pat rep skip cs
  | 0, c :: cs =>
    if pat.isPrefixOf (c :: cs) && !pat.isEmpty then
      rep ++ replaceAllAux pat rep (pat.length - 1) cs
    else
      c :: replaceAllAux pat rep 0 cs

/-- Embedding of JS String.prototype.replace with a global literal pattern
(for example the calls replacing the placeholder tokens): leftmost
non-overlapping matches are replaced and the replacement text is not
rescanned. -/
def replaceAll (pat rep : Str) (s : Str) : Str := replaceAllAux pat rep 0 s

/-- Helper for the svg-tag regexes: scan for the first char that closes the
tag and insert the given text just before it.  Returns none when the tag is
never closed (the regex then has no match). -/
def spliceAtGt (ins : Str) : Str → Option Str
  | [] => none
  | c :: cs =>
    if c = '>' then some (ins ++ '>' :: cs)
    else (spliceAtGt ins cs).map (fun r => c :: r)

/-- Helper for the svg-tag regexes: insert the given text just after the
first char that closes the tag. -/
def spliceAfterGt (ins : Str) : Str → Option Str
  | [] => none
  | c :: cs =>
    if c = '>' then some ('>' :: (ins ++ cs))
    else (spliceAfterGt ins cs).map (fun r => c :: r)

/-- Embedding of a first-match replace with the source's svg-open-tag
regex.  With mode true this is the viewBox insertion (the text is inserted
inside the opening tag, just before its closing char); with mode false it
is the gradient-definition injection (the text is inserted just after the
opening tag).  When the regex has no match the string is unchanged. -/
def replaceSvgTagWith (mode : Bool) (ins : Str) : Str → Str
  | [] => []
  | c :: cs =>
    if (str "<svg").isPrefixOf (c :: cs) then
      match (if mode then spliceAtGt ins (List.drop 3 cs)
             else spliceAfterGt ins (List.drop 3 cs)) with
      | some r => '<' :: 's' :: 'v' :: 'g' :: r
      | none => c :: replaceSvgTagWith mode ins cs
    else c :: replaceSvgTagWith mode ins cs

/-- Decimal digit to character. -/
def digitChar10 : Nat → Char
  | 0 => '0'
  | 1 => '1'
  | 2 => '2'
  | 3 => '3'
  | 4 => '4'
  | 5 => '5'
  | 6 => '6'
  | 7 => '7'
  | 8 => '8'
  | 9 => '9'
  | _ => '*'

/-- Decimal representation of a natural number: the embedding of the JS
number-to-string conversions (template interpolation and toString). -/
def natToDecimal (n : Nat) : Str :=
  if h : n < 10 then [digitChar10 n]
  else natToDecimal (n / 10) ++ [digitChar10 (n % 10)]
decreasing_by
  exact Nat.div_lt_self (by omega) (by omega)

/-- Is the character a decimal digit. -/
def isDigitChar (c : Char) : Bool := 48 ≤ c.toNat && c.toNat ≤ 57

/-- Value of a big-endian string of decimal digits. -/
def decToNat (ds : Str) : Nat := ds.foldl (fun a c => a * 10 + (c.toNat - 48)) 0

/-- Parse the leading decimal digits of a string, ignoring any trailing
characters; none when there is no leading digit. -/
def parseLeadingDigits (l : Str) : Option Nat :=
  let ds := l.takeWhile isDigitChar
  if ds.isEmpty then none else some (decToNat ds)

/-- Embedding of JS parseInt as used on the id option: an optional sign
followed by leading decimal digits, NaN (none) otherwise.  (Leading
whitespace and hexadecimal prefixes, irrelevant to the catalogue ids, are
not modelled.) -/
def jsParseInt (s : Str) : Option Int :=
  match s with
  | [] => none
  | c :: r =>
    if c = '-' then (parseLeadingDigits r).map (fun n => -(n : Int))
    else if c = '+' then (parseLeadingDigits r).map (fun n => (n : Int))
    else (parseLeadingDigits (c :: r)).map (fun n => (n : Int))

/-! ## Options and option merging (src/index.ts lines 10-78) -/

/-- Caller-supplied options: every field optional, as in the SVGOptions and
SingleSVGOption interfaces. -/
structure SVGOptions where
  id : Option Str := none
  color : Option Str := none
  size : Option Nat := none
  gradient : Option Bool := none
  gradientStartColor : Option Str := none
  gradientStopColor : Option Str := none

/-- Options after merging with the defaults: every field present. -/
structure MergedSVGOptions where
  color : Str
  size : Nat
  gradient : Bool
  gradientStartColor : Str
  gradientStopColor : Str
deriving DecidableEq

/-- The defaults of src/index.ts lines 43-49. -/
def defaultOptions : MergedSVGOptions :=
  { color := str "blue"
  , size := 16
  , gradient := false
  , gradientStartColor := str "blue"
  , gradientStopColor := str "lightblue" }

/-- Merge of one string field: the source filter drops fields that are
undefined or the empty string, so those fall back to the default. -/
def mergeStrField (v : Option Str) (d : Str) : Str :=
  match v with
  | none => d
  | some s => if s = [] then d else s

/-- Merge of a non-string field (size, gradient): only undefined fields are
dropped by the filter, since a number or boolean is never strictly equal to
the empty string. -/
def mergeField {α : Type} (v : Option α) (d : α) : α := v.getD d

/-- Embedding of getMergedOptions (src/index.ts lines 65-78). -/
def getMergedOptions (o : SVGOptions) : MergedSVGOptions :=
  { color := mergeStrField o.color defaultOptions.color
  , size := mergeField o.size defaultOptions.size
  , gradient := mergeField o.gradient defaultOptions.gradient
  , gradientStartColor :=
      mergeStrField o.gradientStartColor defaultOptions.gradientStartColor
  , gradientStopColor :=
      mergeStrField o.gradientStopColor defaultOptions.gradientStopColor }

/-! ## The render pipeline (src/index.ts lines 51-145) -/

/-- The inserted viewBox attribute text, with the space the replacement
template puts before it. -/
def viewBoxIns : Str := str " viewBox=\"0 0 200 200\""

/-- Embedding of addViewBox (src/index.ts lines 57-63). -/
def addViewBox (t : Str) : Str :=
  if containsSub (str "viewBox") t then t
  else replaceSvgTagWith true viewBoxIns t

/-- The minted gradient identifier for a given counter value. -/
def gradId (n : Nat) : Str := str "grad-" ++ natToDecimal n

/-- The fill value referencing a minted gradient identifier. -/
def urlFill (n : Nat) : Str := str "url(#" ++ gradId n ++ str ")"

/-- The gradient definition block of addColorsToSvg (src/index.ts lines
99-106), with the exact literal whitespace of the source template. -/
def gradDefBlock (gid gStart gStop : Str) : Str :=
  str "<defs>\n      <linearGradient id=\"" ++ gid ++
  str "\" x1=\"0\" y1=\"0\" x2=\"1\" y2=\"1\">\n        <stop offset=\"5%\" stop-color=\"" ++
  gStart ++
  str "\" />\n        <stop offset=\"95%\" stop-color=\"" ++
  gStop ++
  str "\" />\n      </linearGradient>\n    </defs>"

/-- Embedding of addColorsToSvg (src/index.ts lines 89-109): returns the
fill value, the gradient definition and the updated counter.  The counter
is incremented unconditionally by the source (gradientIdCounter++ runs
before the gradient flag is consulted). -/
def addColorsToSvg (color : Str) (gradient : Bool) (gStart gStop : Str)
    (counter : Nat) : Str × Str × Nat :=
  let fill := if gradient then urlFill counter else color
  let gradientDefinition :=
    if gradient then gradDefBlock (gradId counter) gStart gStop else []
  (fill, gradientDefinition, counter + 1)

/-- The width/height replacement text: the source uses the stringified size
unless the size is falsy (0), in which case the fallback "16". -/
def sizeSubst (size : Nat) : Str :=
  if size = 0 then str "16" else natToDecimal size

/-- The shared substitution tail of the three render operations
(src/index.ts lines 141-145): inject the gradient definition after the
opening svg tag, then replace each placeholder token globally. -/
def substitute (fill gradDef : Str) (size : Nat) (t : Str) : Str :=
  replaceAll (str "${height}") (sizeSubst size)
    (replaceAll (str "${width}") (sizeSubst size)
      (replaceAll (str "${color}") fill
        (replaceSvgTagWith false gradDef t)))

/-- One render of a template under merged options: colors are resolved
(incrementing the counter), the viewBox is ensured and the placeholders are
substituted, as in the bodies of the three exported operations. -/
def renderSvg (t : Str) (m : MergedSVGOptions) (counter : Nat) : Str × Nat :=
  let r := addColorsToSvg m.color m.gradient m.gradientStartColor
    m.gradientStopColor counter
  (substitute r.1 r.2.1 m.size (addViewBox t), r.2.2)

/-! ## The exported operations (src/index.ts lines 121-273) -/

/-- Embedding of getRandomSvg (src/index.ts lines 121-146).  The catalogue
list and the random draw (the index Math.floor(Math.random()*length)) are
explicit arguments.  On an empty catalogue the source reads an undefined
template, increments the counter in addColorsToSvg and then throws from
addViewBox; this is modelled as a none result with the incremented
counter. -/
def getRandomSvg (svgs : List Str) (pick : Nat) (o : SVGOptions)
    (counter : Nat) : Option Str × Nat :=
  match svgs.get? pick with
  | some t =>
    let r := renderSvg t (getMergedOptions o) counter
    (some r.1, r.2)
  | none => (none, counter + 1)

/-- Embedding of getSvgById (src/index.ts lines 159-191).  A missing or
empty id throws before the colors are resolved, so the counter is
unchanged; a non-numeric or out-of-range id selects an undefined template,
so the counter is incremented by addColorsToSvg before addViewBox throws.
Every thrown error is caught and rethrown as the single "Invalid ID"
error. -/
def getSvgById (svgs : List Str) (o : SVGOptions) (counter : Nat) :
    Except Str Str × Nat :=
  match o.id with
  | none => (Except.error (str "Invalid ID"), counter)
  | some idStr =>
    if idStr = [] then (Except.error (str "Invalid ID"), counter)
    else
      match jsParseInt idStr with
      | none => (Except.error (str "Invalid ID"), counter + 1)
      | some v =>
        if v < 0 then (Except.error (str "Invalid ID"), counter + 1)
        else
          match svgs.get? v.toNat with
          | none => (Except.error (str "Invalid ID"), counter + 1)
          | some t =>
            let r := renderSvg t (getMergedOptions o) counter
            (Except.ok r.1, r.2)

/-- The color pairing table (src/index.ts lines 194-203) as the list of
(key, start hue, stop hue) triples in the source's insertion order. -/
def ColorPairingMap : List (Str × Str × Str) :=
  [ (str "red", str "red", str "pink")
  , (str "pink", str "pink", str "purple")
  , (str "purple", str "purple", str "blue")
  , (str "blue", str "blue", str "cyan")
  , (str "cyan", str "cyan", str "green")
  , (str "green", str "green", str "yellow")
  , (str "yellow", str "yellow", str "orange")
  , (str "orange", str "orange", str "red") ]

/-- The table entry selected by a random draw (an index into the key
list, always within bounds in the source since Math.random is below 1). -/
def pairAt (j : Fin 8) : Str × Str × Str :=
  ColorPairingMap.getD j.val (str "red", str "red", str "pink")

/-- Embedding of the JS expression size-or-16 of src/index.ts line 250
(a falsy size, in particular 0 or an absent options object, yields 16). -/
def jsSizeOr (sz : Option Nat) : Nat :=
  match sz with
  | some n => if n = 0 then 16 else n
  | none => 16

/-- Branch condition of getAllSvgs (src/index.ts lines 214-219): a truthy
color, or a truthy gradient together with truthy start and stop colors. -/
def branchA (o : Option SVGOptions) : Bool :=
  match o with
  | none => false
  | some o =>
    (match o.color with | some s => !s.isEmpty | none => false) ||
    ((o.gradient.getD false) &&
     (match o.gradientStartColor with | some s => !s.isEmpty | none => false) &&
     (match o.gradientStopColor with | some s => !s.isEmpty | none => false))

/-- The explicit-styling arm of getAllSvgs (src/index.ts lines 220-239):
each template is rendered with the same merged options, the counter
advancing once per template. -/
def renderAllA (m : MergedSVGOptions) (counter : Nat) : List Str → List Str × Nat
  | [] => ([], counter)
  | t :: ts =>
    let r := renderSvg t m counter
    let rest := renderAllA m r.2 ts
    (r.1 :: rest.1, rest.2)

/-- The random-styling arm of getAllSvgs (src/index.ts lines 242-271): for
each template a fresh draw from the pairing table, gradient forced on, the
caller's size (or 16 when falsy).  The draw sequence is the explicit rand
argument, consumed at successive indices starting from i. -/
def renderAllB (rand : Nat → Fin 8) (sz : Option Nat) (i counter : Nat) :
    List Str → List Str × Nat
  | [] => ([], counter)
  | t :: ts =>
    let p := pairAt (rand i)
    let m := getMergedOptions
      { id := none
      , color := some p.1
      , size := some (jsSizeOr sz)
      , gradient := some true
      , gradientStartColor := some p.2.1
      , gradientStopColor := some p.2.2 }
    let r := renderSvg t m counter
    let rest := renderAllB rand sz (i + 1) r.2 ts
    (r.1 :: rest.1, rest.2)

/-- Embedding of getAllSvgs (src/index.ts lines 212-273). -/
def getAllSvgs (svgs : List Str) (rand : Nat → Fin 8) (o : Option SVGOptions)
    (counter : Nat) : List Str × Nat :=
  if branchA o then
    renderAllA (getMergedOptions (o.getD {})) counter svgs
  else
    renderAllB rand (match o with | some o => o.size | none => none) 0 counter svgs

/-! ## The template token format -/

/-- The three placeholder tokens of the template format. -/
def placeholderToks : List Str := [str "${color}", str "${width}", str "${height}"]

/-- Modelled from the spec: the template format of the catalogue templates
(the raw template files themselves are produced by the offline builder and
are not part of src): raw markup text whose dollar signs occur only as
complete placeholder tokens.  A string follows the token format for a given
token list when it is built from non-dollar literal characters and whole
tokens. -/
inductive TokFormat (toks : List Str) : Str → Prop where
  | nil : TokFormat toks []
  | lit (c : Char) (t : Str) : c ≠ '$' → TokFormat toks t → TokFormat toks (c :: t)
  | tok (p : Str) (t : Str) : p ∈ toks → TokFormat toks t → TokFormat toks (p ++ t)

/-- Executable check of the token format: every dollar sign must begin an
occurrence of one of the tokens. -/
def tokFormatChk (toks : List Str) : Str → Bool
  | [] => true
  | c :: cs =>
    (if c = '$' then toks.any (fun t => t.isPrefixOf (c :: cs)) else true)
      && tokFormatChk toks cs

/-- No dollar sign occurs in the string. -/
def dollarFree (s : Str) : Bool := !(s.contains '$')

/-- The caller-supplied color fields are free of dollar signs (the validity
assumption on resolved options: a color value is a hue name or color
literal, not placeholder syntax). -/
def dollarFreeOpts (o : SVGOptions) : Bool :=
  (match o.color with | none => true | some s => dollarFree s)
  && (match o.gradientStartColor with | none => true | some s => dollarFree s)
  && (match o.gradientStopColor with | none => true | some s => dollarFree s)

/-- A rendered output has no unreplaced occurrence of any placeholder
token. -/
def noToks (s : Str) : Prop :=
  countOccur (str "${color}") s = 0
  ∧ countOccur (str "${width}") s = 0
  ∧ countOccur (str "${height}") s = 0

/-! ## Decimal conversion lemmas -/

theorem digitChar10_toNat (d : Nat) (h : d < 10) : (digitChar10 d).toNat = 48 + d := by
  interval_cases d <;> rfl

theorem isDigitChar_digitChar10 (d : Nat) (h : d < 10) :
    isDigitChar (digitChar10 d) = true := by
  interval_cases d <;> rfl

theorem natToDecimal_ne_nil (n : Nat) : natToDecimal n ≠ [] := by
  rw [natToDecimal]
  split <;> simp

theorem mem_natToDecimal_digit (n : Nat) :
    ∀ c ∈ natToDecimal n, isDigitChar c = true := by
  induction n using Nat.strong_induction_on with
  | _ n ih =>
    intro c hc
    rw [natToDecimal] at hc
    split at hc
    · rcases List.mem_singleton.mp hc with h
      subst h
      exact isDigitChar_digitChar10 n (by assumption)
    · rcases List.mem_append.mp hc with h | h
      · exact ih (n / 10) (Nat.div_lt_self (by omega) (by omega)) c h
      · rcases List.mem_singleton.mp h with h
        subst h
        exact isDigitChar_digitChar10 _ (Nat.mod_lt _ (by omega))

theorem decToNat_natToDecimal (n : Nat) : decToNat (natToDecimal n) = n := by
  induction n using Nat.strong_induction_on with
  | _ n ih =>
    rw [natToDecimal]
    split
    · have h : n < 10 := by assumption
      simp [decToNat, List.foldl, digitChar10_toNat n h]
    · have h : ¬ n < 10 := by assumption
      have hdiv := ih (n / 10) (Nat.div_lt_self (by omega) (by omega))
      have hmod := Nat.div_add_mod n 10
      simp only [decToNat, List.foldl_append, List.foldl] at hdiv ⊢
      rw [hdiv, digitChar10_toNat _ (Nat.mod_lt _ (by omega))]
      omega

theorem natToDecimal_inj (m n : Nat) (h : natToDecimal m = natToDecimal n) : m = n := by
  have hm := decToNat_natToDecimal m
  rw [h, decToNat_natToDecimal] at hm
  omega

theorem takeWhile_digits_all :
    ∀ l : Str, (∀ c ∈ l, isDigitChar c = true) → l.takeWhile isDigitChar = l := by
  intro l
  induction l with
  | nil => intro _; rfl
  | cons c cs ih =>
    intro h
    rw [List.takeWhile_cons, h c (List.mem_cons_self _ _)]
    simp [ih (fun d hd => h d (List.mem_cons_of_mem _ hd))]

theorem jsParseInt_natToDecimal (k : Nat) : jsParseInt (natToDecimal k) = some (k : Int) := by
  have hne := natToDecimal_ne_nil k
  obtain ⟨c, r, hcr⟩ : ∃ c r, natToDecimal k = c :: r := by
    cases h : natToDecimal k with
    | nil => exact absurd h hne
    | cons a as => exact ⟨a, as, rfl⟩
  have hc : isDigitChar c = true := by
    apply mem_natToDecimal_digit k
    rw [hcr]
    exact List.mem_cons_self _ _
  have hcm : ¬ c = '-' := by
    intro e
    rw [e] at hc
    exact absurd hc (by decide)
  have hcp : ¬ c = '+' := by
    intro e
    rw [e] at hc
    exact absurd hc (by decide)
  have htw : (c :: r).takeWhile isDigitChar = c :: r := by
    rw [← hcr]
    exact takeWhile_digits_all _ (mem_natToDecimal_digit k)
  rw [hcr, jsParseInt, if_neg hcm, if_neg hcp]
  simp only [parseLeadingDigits, htw]
  simp only [List.isEmpty_cons, Bool.false_eq_true, if_false, Option.map_some]
  rw [← hcr, decToNat_natToDecimal]
  rfl

/-! ## One-step equations for replaceAll -/

theorem replaceAllAux_skip (pat rep : Str) :
    ∀ (n : Nat) (s : Str),
      replaceAllAux pat rep n s = replaceAllAux pat rep 0 (List.drop n s) := by
  intro n
  induction n with
  | zero => intro s; rfl
  | succ n ih =>
    intro s
    cases s with
    | nil => rfl
    | cons c cs =>
      show replaceAllAux pat rep n cs = _
      rw [ih cs, List.drop_succ_cons]

theorem replaceAll_nil (pat rep : Str) : replaceAll pat rep [] = [] := rfl

theorem replaceAll_cons (pat rep : Str) (c : Char) (cs : Str) :
    replaceAll pat rep (c :: cs)
      = if pat.isPrefixOf (c :: cs) && !pat.isEmpty then
          rep ++ replaceAll pat rep (List.drop (pat.length - 1) cs)
        else
          c :: replaceAll pat rep cs := by
  unfold replaceAll
  show (if pat.isPrefixOf (c :: cs) && !pat.isEmpty then
      rep ++ replaceAllAux pat rep (pat.length - 1) cs
    else c :: replaceAllAux pat rep 0 cs) = _
  rw [replaceAllAux_skip]

/-! ## Counter bookkeeping lemmas -/

theorem renderSvg_counter (t : Str) (m : MergedSVGOptions) (c : Nat) :
    (renderSvg t m c).2 = c + 1 := rfl

theorem renderAllA_counter :
    ∀ (ts : List Str) (m : MergedSVGOptions) (c : Nat),
      (renderAllA m c ts).2 = c + ts.length := by
  intro ts
  induction ts with
  | nil => intro m c; simp [renderAllA]
  | cons t ts ih =>
    intro m c
    simp only [renderAllA, renderSvg_counter, ih, List.length_cons]
    omega

theorem renderAllB_counter :
    ∀ (ts : List Str) (rand : Nat → Fin 8) (sz : Option Nat) (i c : Nat),
      (renderAllB rand sz i c ts).2 = c + ts.length := by
  intro ts
  induction ts with
  | nil => intro rand sz i c; simp [renderAllB]
  | cons t ts ih =>
    intro rand sz i c
    simp only [renderAllB, renderSvg_counter, ih, List.length_cons]
    omega

theorem gradId_ne (m n : Nat) (h : m ≠ n) : gradId m ≠ gradId n := by
  intro he
  exact h (natToDecimal_inj m n (List.append_cancel_left he))

theorem getRandomSvg_counter (svgs : List Str) (pick : Nat) (o : SVGOptions)
    (c : Nat) : (getRandomSvg svgs pick o c).2 = c + 1 := by
  unfold getRandomSvg
  cases svgs.get? pick <;> rfl

/-! ## Render-shape lemmas for the two getAllSvgs arms -/

theorem renderSvg_nograd (t : Str) (m : MergedSVGOptions) (c : Nat)
    (h : m.gradient = false) :
    renderSvg t m c = (substitute m.color [] m.size (addViewBox t), c + 1) := by
  simp [renderSvg, addColorsToSvg, h]

theorem renderSvg_grad (t : Str) (m : MergedSVGOptions) (c : Nat)
    (h : m.gradient = true) :
    renderSvg t m c
      = (substitute (urlFill c)
          (gradDefBlock (gradId c) m.gradientStartColor m.gradientStopColor)
          m.size (addViewBox t), c + 1) := by
  simp [renderSvg, addColorsToSvg, h]

theorem renderAllA_nograd :
    ∀ (ts : List Str) (m : MergedSVGOptions) (c : Nat), m.gradient = false →
      renderAllA m c ts
        = (ts.map (fun t => substitute m.color [] m.size (addViewBox t)),
           c + ts.length) := by
  intro ts
  induction ts with
  | nil => intro m c _; simp [renderAllA]
  | cons t ts ih =>
    intro m c h
    simp only [renderAllA, renderSvg_nograd t m c h, ih m (c + 1) h, List.map_cons,
      List.length_cons, Prod.mk.injEq]
    exact ⟨trivial, by omega⟩

theorem pairAt_specs :
    ∀ j : Fin 8, pairAt j ∈ ColorPairingMap
      ∧ (pairAt j).1 ≠ [] ∧ (pairAt j).2.1 ≠ [] ∧ (pairAt j).2.2 ≠ [] := by
  decide

theorem mergedB_eq (p : Str × Str × Str) (sz : Option Nat)
    (h1 : p.1 ≠ []) (h2 : p.2.1 ≠ []) (h3 : p.2.2 ≠ []) :
    getMergedOptions
      { id := none, color := some p.1, size := some (jsSizeOr sz)
      , gradient := some true, gradientStartColor := some p.2.1
      , gradientStopColor := some p.2.2 }
      = { color := p.1, size := jsSizeOr sz, gradient := true
        , gradientStartColor := p.2.1, gradientStopColor := p.2.2 } := by
  simp [getMergedOptions, mergeStrField, mergeField, h1, h2, h3]

theorem renderAllB_length :
    ∀ (ts : List Str) (rand : Nat → Fin 8) (sz : Option Nat) (i c : Nat),
      (renderAllB rand sz i c ts).1.length = ts.length := by
  intro ts
  induction ts with
  | nil => intro rand sz i c; simp [renderAllB]
  | cons t ts ih =>
    intro rand sz i c
    simp [renderAllB, ih]

theorem renderAllB_get :
    ∀ (ts : List Str) (rand : Nat → Fin 8) (sz : Option Nat) (i c j : Nat),
      j < ts.length →
      (renderAllB rand sz i c ts).1.get? j
        = (ts.get? j).map (fun t =>
            substitute (urlFill (c + j))
              (gradDefBlock (gradId (c + j))
                (pairAt (rand (i + j))).2.1 (pairAt (rand (i + j))).2.2)
              (jsSizeOr sz) (addViewBox t)) := by
  intro ts
  induction ts with
  | nil => intro rand sz i c j hj; simp at hj
  | cons t ts ih =>
    intro rand sz i c j hj
    have hp := pairAt_specs (rand i)
    cases j with
    | zero =>
      simp only [renderAllB, mergedB_eq (pairAt (rand i)) sz hp.2.1 hp.2.2.1 hp.2.2.2]
      rw [renderSvg_grad _ _ _ rfl]
      simp
    | succ j =>
      have hj' : j < ts.length := by simpa using hj
      simp only [renderAllB, List.get?_cons_succ, renderSvg_counter]
      rw [ih rand sz (i + 1) (c + 1) j hj']
      have e1 : c + 1 + j = c + (j + 1) := by omega
      have e2 : i + 1 + j = i + (j + 1) := by omega
      rw [e1, e2]

/-! ## Claim theorems -/

/-- C3: getSvgById called with options lacking the identifier field fails
with the single Invalid ID error kind (the embedding of the thrown error,
not a null return), regardless of the other option fields. -/
theorem claim_C3 (svgs : List Str) (c : Nat) (col : Option Str) (sz : Option Nat)
    (gr : Option Bool) (gsc gtc : Option Str) :
    getSvgById svgs
      { id := none, color := col, size := sz, gradient := gr
      , gradientStartColor := gsc, gradientStopColor := gtc } c
      = (Except.error (str "Invalid ID"), c) := rfl

/-- C4: merging caller options with the defaults yields a record with every
field present, where an absent (or, for string fields, empty-string) input
field is replaced by its default (color blue, size 16, gradient false,
start blue, stop lightblue) and every supplied non-empty value is kept. -/
theorem claim_C4 (o : SVGOptions) :
    ((o.color = none ∨ o.color = some [] → (getMergedOptions o).color = str "blue")
      ∧ (∀ s, o.color = some s → s ≠ [] → (getMergedOptions o).color = s))
    ∧ ((o.size = none → (getMergedOptions o).size = 16)
      ∧ (∀ n, o.size = some n → (getMergedOptions o).size = n))
    ∧ ((o.gradient = none → (getMergedOptions o).gradient = false)
      ∧ (∀ b, o.gradient = some b → (getMergedOptions o).gradient = b))
    ∧ ((o.gradientStartColor = none ∨ o.gradientStartColor = some [] →
          (getMergedOptions o).gradientStartColor = str "blue")
      ∧ (∀ s, o.gradientStartColor = some s → s ≠ [] →
          (getMergedOptions o).gradientStartColor = s))
    ∧ ((o.gradientStopColor = none ∨ o.gradientStopColor = some [] →
          (getMergedOptions o).gradientStopColor = str "lightblue")
      ∧ (∀ s, o.gradientStopColor = some s → s ≠ [] →
          (getMergedOptions o).gradientStopColor = s)) := by
  refine ⟨⟨?_, ?_⟩, ⟨?_, ?_⟩, ⟨?_, ?_⟩, ⟨?_, ?_⟩, ⟨?_, ?_⟩⟩
  · rintro (h | h) <;> simp [getMergedOptions, mergeStrField, defaultOptions, h]
  · intro s hs hne; simp [getMergedOptions, mergeStrField, hs, hne]
  · intro h; simp [getMergedOptions, mergeField, defaultOptions, h]
  · intro n hn; simp [getMergedOptions, mergeField, hn]
  · intro h; simp [getMergedOptions, mergeField, defaultOptions, h]
  · intro b hb; simp [getMergedOptions, mergeField, hb]
  · rintro (h | h) <;> simp [getMergedOptions, mergeStrField, defaultOptions, h]
  · intro s hs hne; simp [getMergedOptions, mergeStrField, hs, hne]
  · rintro (h | h) <;> simp [getMergedOptions, mergeStrField, defaultOptions, h]
  · intro s hs hne; simp [getMergedOptions, mergeStrField, hs, hne]

/-- C4 witness: the merge evaluated at concrete inputs. -/
theorem claim_C4_witness :
    (getMergedOptions { color := some [] }).color = str "blue"
    ∧ (getMergedOptions { color := some (str "red") }).color = str "red"
    ∧ (getMergedOptions {}).size = 16
    ∧ (getMergedOptions { size := some 0 }).size = 0
    ∧ (getMergedOptions {}).gradient = false :=
  ⟨(claim_C4 { color := some [] }).1.1 (Or.inr rfl),
   (claim_C4 { color := some (str "red") }).1.2 (str "red") rfl (by decide),
   (claim_C4 {}).2.1.1 rfl,
   (claim_C4 { size := some 0 }).2.1.2 0 rfl,
   (claim_C4 {}).2.2.1.1 rfl⟩

/-- C2 counterexample: a getRandomSvg call whose resolved gradient is false
still increments the process-wide counter (from 0 to 1), contradicting the
claim that a render without a gradient leaves the counter unchanged. -/
theorem claim_C2_counterexample :
    (getMergedOptions {}).gradient = false
    ∧ (getRandomSvg [str "<svg></svg>"] 0 {} 0).2 = 1 := ⟨rfl, rfl⟩

/-- C2 amended: the counter is incremented exactly once per render that
reaches color resolution, whether or not the render bears a gradient:
getRandomSvg always adds one, getSvgById adds one unless the identifier is
missing or empty (it then throws before color resolution and the counter
is unchanged), and getAllSvgs adds the catalogue size. -/
theorem claim_C2_amended :
    (∀ (svgs : List Str) (pick : Nat) (o : SVGOptions) (c : Nat),
      (getRandomSvg svgs pick o c).2 = c + 1)
    ∧ (∀ (svgs : List Str) (o : SVGOptions) (c : Nat),
        o.id = none ∨ o.id = some [] → (getSvgById svgs o c).2 = c)
    ∧ (∀ (svgs : List Str) (o : SVGOptions) (c : Nat) (s : Str),
        o.id = some s → s ≠ [] → (getSvgById svgs o c).2 = c + 1)
    ∧ (∀ (svgs : List Str) (rand : Nat → Fin 8) (o : Option SVGOptions) (c : Nat),
        (getAllSvgs svgs rand o c).2 = c + svgs.length) := by
  refine ⟨?_, ?_, ?_, ?_⟩
  · exact getRandomSvg_counter
  · rintro svgs o c (h | h) <;> simp [getSvgById, h]
  · intro svgs o c s hs hne
    simp only [getSvgById, hs]
    rw [if_neg hne]
    cases hp : jsParseInt s with
    | none => rfl
    | some v =>
      by_cases hv : v < 0
      · simp [hv]
      · simp only [hv, if_false]
        cases hg : svgs.get? v.toNat <;> simp [renderSvg_counter]
  · intro svgs rand o c
    by_cases hb : branchA o = true
    · simp [getAllSvgs, hb, renderAllA_counter]
    · simp [getAllSvgs, hb, renderAllB_counter]

/-- C2 amended witness: the counter bookkeeping evaluated at concrete
inputs. -/
theorem claim_C2_amended_witness :
    (getRandomSvg [] 0 {} 3).2 = 3 + 1
    ∧ (getSvgById [] {} 5).2 = 5
    ∧ (getSvgById [] { id := some (str "2") } 5).2 = 5 + 1
    ∧ (getAllSvgs [] (fun _ => (0 : Fin 8)) none 2).2 = 2 + List.length ([] : List Str) :=
  ⟨claim_C2_amended.1 [] 0 {} 3,
   claim_C2_amended.2.1 [] {} 5 (Or.inl rfl),
   claim_C2_amended.2.2.1 [] { id := some (str "2") } 5 (str "2") rfl (by decide),
   claim_C2_amended.2.2.2 [] (fun _ => (0 : Fin 8)) none 2⟩

/-- C8: every render advances the counter strictly (two successive calls
use counters c and c+1), and minted gradient identifiers at distinct
counter values are never equal; in particular two gradient-bearing renders
in the same process mint distinct grad identifiers. -/
theorem claim_C8 (svgs : List Str) (p1 p2 : Nat) (o : SVGOptions) (c : Nat) :
    (getRandomSvg svgs p1 o c).2 = c + 1
    ∧ (getRandomSvg svgs p2 o ((getRandomSvg svgs p1 o c).2)).2 = c + 2
    ∧ gradId c ≠ gradId ((getRandomSvg svgs p1 o c).2)
    ∧ (∀ m n : Nat, m < n → gradId m ≠ gradId n) := by
  have h1 : (getRandomSvg svgs p1 o c).2 = c + 1 := getRandomSvg_counter svgs p1 o c
  have h2 : (getRandomSvg svgs p2 o ((getRandomSvg svgs p1 o c).2)).2 = c + 2 := by
    rw [h1, getRandomSvg_counter svgs p2 o (c + 1)]
  refine ⟨h1, h2, ?_, ?_⟩
  · rw [h1]
    exact gradId_ne c (c + 1) (by omega)
  · intro m n hmn
    exact gradId_ne m n (by omega)

/-- C8 witness: the identifier inequality and counter advance evaluated at
a concrete gradient-bearing call. -/
theorem claim_C8_witness :
    gradId 0 ≠ gradId 1
    ∧ (getRandomSvg [str "<svg>${color}</svg>"] 0
        { gradient := some true, gradientStartColor := some (str "red")
        , gradientStopColor := some (str "yellow") } 0).2 = 0 + 1 :=
  ⟨(claim_C8 [] 0 0 {} 0).2.2.2 0 1 (by decide),
   (claim_C8 [str "<svg>${color}</svg>"] 0 0
      { gradient := some true, gradientStartColor := some (str "red")
      , gradientStopColor := some (str "yellow") } 0).1⟩

/-- C1 counterexample: with a one-template catalogue (single key 1),
getSvgById with identifier "1" does not return the key-1 rendering but
fails with the Invalid ID error, because the source indexes the zero-based
template list directly with the parsed identifier. -/
theorem claim_C1_counterexample :
    getSvgById [str "<svg>${color}</svg>"] { id := some (str "1") } 0
      = (Except.error (str "Invalid ID"), 1) := rfl

/-- C1 amended: identifier-based selection is zero-based into the
key-ordered template list: an identifier with integer value k for
0 ≤ k ≤ N-1 selects the template at list position k, that is the
catalogue template with key k+1, and returns the standard pipeline markup
for it; the identifier with value N (the largest catalogue key) fails with
the Invalid ID error. -/
theorem claim_C1_amended (svgs : List Str) (c k : Nat) (hk : k < svgs.length) :
    getSvgById svgs { id := some (natToDecimal k) } c
      = (Except.ok (renderSvg (svgs.get ⟨k, hk⟩)
          (getMergedOptions { id := some (natToDecimal k) }) c).1, c + 1)
    ∧ getSvgById svgs { id := some (natToDecimal svgs.length) } c
      = (Except.error (str "Invalid ID"), c + 1) := by
  constructor
  · simp only [getSvgById]
    rw [if_neg (natToDecimal_ne_nil k), jsParseInt_natToDecimal k]
    have hneg : ¬ ((k : Int) < 0) := by omega
    simp only [hneg, if_false, Int.toNat_ofNat, List.get?_eq_get hk]
    rw [renderSvg_counter]
  · simp only [getSvgById]
    rw [if_neg (natToDecimal_ne_nil svgs.length), jsParseInt_natToDecimal svgs.length]
    have hneg : ¬ ((svgs.length : Int) < 0) := by omega
    have hnone : svgs.get? (Int.toNat (svgs.length : Int)) = none := by
      rw [Int.toNat_ofNat]
      exact List.get?_eq_none.mpr (le_refl _)
    simp only [hneg, if_false, hnone]

/-- C1 amended witness: a two-template catalogue evaluated at identifiers
1 (selecting the second template, catalogue key 2) and 2 (error). -/
theorem claim_C1_amended_witness :
    getSvgById [str "<svg>${color}</svg>", str "<svg>2${color}</svg>"]
        { id := some (natToDecimal 1) } 0
      = (Except.ok (renderSvg (str "<svg>2${color}</svg>")
          (getMergedOptions { id := some (natToDecimal 1) }) 0).1, 0 + 1)
    ∧ getSvgById [str "<svg>${color}</svg>", str "<svg>2${color}</svg>"]
        { id := some (natToDecimal
          (List.length [str "<svg>${color}</svg>", str "<svg>2${color}</svg>"]))} 0
      = (Except.error (str "Invalid ID"), 0 + 1) :=
  claim_C1_amended [str "<svg>${color}</svg>", str "<svg>2${color}</svg>"] 0 1
    (by decide)

/-- C10: a caller-supplied size 0 survives the merge (only undefined and
empty-string fields are defaulted) yet the width and height tokens of the
returned markup are substituted with the fallback string "16", not "0". -/
theorem claim_C10 (o : SVGOptions) (h : o.size = some 0) :
    (getMergedOptions o).size = 0
    ∧ sizeSubst (getMergedOptions o).size = str "16"
    ∧ getRandomSvg [str "<svg>h=${height} w=${width}</svg>"] 0 { size := some 0 } 0
        = (some (str "<svg viewBox=\"0 0 200 200\">h=16 w=16</svg>"), 1) := by
  have h1 : (getMergedOptions o).size = 0 := by
    simp [getMergedOptions, mergeField, h]
  exact ⟨h1, by rw [h1]; rfl, by decide⟩

/-- C10 witness: the size-0 merge and substitution evaluated concretely. -/
theorem claim_C10_witness :
    (getMergedOptions { size := some 0 }).size = 0
    ∧ sizeSubst (getMergedOptions { size := some 0 }).size = str "16"
    ∧ getRandomSvg [str "<svg>h=${height} w=${width}</svg>"] 0 { size := some 0 } 0
        = (some (str "<svg viewBox=\"0 0 200 200\">h=16 w=16</svg>"), 1) :=
  claim_C10 { size := some 0 } rfl

/-- C6: getAllSvgs with only the color "purple" supplied returns one
element per catalogue entry, each the substitution of its template with
literal fill "purple", an empty injected gradient definition and the
default size 16. -/
theorem claim_C6 (svgs : List Str) (rand : Nat → Fin 8) (c : Nat) :
    getAllSvgs svgs rand (some { color := some (str "purple") }) c
      = (svgs.map (fun t => substitute (str "purple") [] 16 (addViewBox t)),
         c + svgs.length)
    ∧ (getAllSvgs svgs rand (some { color := some (str "purple") }) c).1.length
        = svgs.length := by
  have hb : branchA (some { color := some (str "purple") }) = true := rfl
  have hm : getMergedOptions ({ color := some (str "purple") } : SVGOptions)
      = { color := str "purple", size := 16, gradient := false
        , gradientStartColor := str "blue", gradientStopColor := str "lightblue" } := rfl
  have he : getAllSvgs svgs rand (some { color := some (str "purple") }) c
      = (svgs.map (fun t => substitute (str "purple") [] 16 (addViewBox t)),
         c + svgs.length) := by
    show (if branchA (some { color := some (str "purple") }) = true then _ else _) = _
    rw [if_pos hb]
    show renderAllA (getMergedOptions { color := some (str "purple") }) c svgs = _
    rw [hm, renderAllA_nograd svgs _ c rfl]
  exact ⟨he, by rw [he]; simp⟩

/-- C7: getAllSvgs with no options returns one element per catalogue
entry; each element is rendered with the gradient active (a url fill
referencing the minted identifier and an injected gradient definition
block) whose start and stop colors are the pair of some key of the
ColorPairing table. -/
theorem claim_C7 (svgs : List Str) (rand : Nat → Fin 8) (c : Nat) :
    (getAllSvgs svgs rand none c).1.length = svgs.length
    ∧ ∀ j, j < svgs.length → ∃ key s1 s2,
        (key, s1, s2) ∈ ColorPairingMap
        ∧ (getAllSvgs svgs rand none c).1.get? j
          = (svgs.get? j).map (fun t =>
              substitute (urlFill (c + j)) (gradDefBlock (gradId (c + j)) s1 s2)
                16 (addViewBox t)) := by
  have hg : getAllSvgs svgs rand none c = renderAllB rand none 0 c svgs := rfl
  constructor
  · rw [hg, renderAllB_length]
  · intro j hj
    refine ⟨(pairAt (rand (0 + j))).1, (pairAt (rand (0 + j))).2.1,
      (pairAt (rand (0 + j))).2.2, (pairAt_specs (rand (0 + j))).1, ?_⟩
    rw [hg, renderAllB_get svgs rand none 0 c j hj]
    rfl

/-- C7 witness: the random-styling branch evaluated on a one-template
catalogue with a constant draw sequence. -/
theorem claim_C7_witness :
    (getAllSvgs [str "<svg>${color}</svg>"] (fun _ => (0 : Fin 8)) none 0).1.length
      = List.length [str "<svg>${color}</svg>"]
    ∧ ∃ key s1 s2, (key, s1, s2) ∈ ColorPairingMap
        ∧ (getAllSvgs [str "<svg>${color}</svg>"] (fun _ => (0 : Fin 8)) none 0).1.get? 0
          = (([str "<svg>${color}</svg>"] : List Str).get? 0).map (fun t =>
              substitute (urlFill (0 + 0)) (gradDefBlock (gradId (0 + 0)) s1 s2)
                16 (addViewBox t)) :=
  ⟨(claim_C7 [str "<svg>${color}</svg>"] (fun _ => (0 : Fin 8)) 0).1,
   (claim_C7 [str "<svg>${color}</svg>"] (fun _ => (0 : Fin 8)) 0).2 0 (by decide)⟩

/-! ## Substring counting lemmas for the viewBox property -/

theorem isPrefixOf_append_excl :
    ∀ (p zs : Str) (c : Char) (ws : Str), c ∉ p →
      p.isPrefixOf (zs ++ c :: ws) = p.isPrefixOf zs := by
  intro p
  induction p with
  | nil => intro zs c ws _; simp [List.isPrefixOf]
  | cons a p ih =>
    intro zs c ws hc
    cases zs with
    | nil =>
      have hac : (a == c) = false := by
        simp only [beq_eq_false_iff_ne]
        intro e
        exact hc (e ▸ List.mem_cons_self a p)
      simp [List.isPrefixOf, hac]
    | cons z zs =>
      simp only [List.cons_append, List.isPrefixOf, List.append_eq]
      rw [ih zs c ws (fun h => hc (List.mem_cons_of_mem a h))]

theorem countOccur_append_excl :
    ∀ (p xs : Str) (c : Char) (ys : Str), c ∉ p → p ≠ [] →
      countOccur p (xs ++ c :: ys) = countOccur p xs + countOccur p ys := by
  intro p xs
  induction xs with
  | nil =>
    intro c ys hc hp
    obtain ⟨a, p', rfl⟩ : ∃ a p', p = a :: p' := by
      cases p with
      | nil => exact absurd rfl hp
      | cons a p' => exact ⟨a, p', rfl⟩
    have hac : (a == c) = false := by
      simp only [beq_eq_false_iff_ne]
      intro e
      exact hc (e ▸ List.mem_cons_self a p')
    simp [countOccur, List.isPrefixOf, hac]
  | cons x xs ih =>
    intro c ys hc hp
    have hx : ((x :: xs) ++ c :: ys) = x :: (xs ++ c :: ys) := rfl
    rw [hx]
    simp only [countOccur]
    have hpre : p.isPrefixOf (x :: (xs ++ c :: ys)) = p.isPrefixOf (x :: xs) :=
      isPrefixOf_append_excl p (x :: xs) c ys hc
    rw [hpre, ih c ys hc hp]
    omega

theorem countOccur_of_not_containsSub :
    ∀ (p s : Str), containsSub p s = false → countOccur p s = 0 := by
  intro p s
  induction s with
  | nil =>
    intro h
    simp only [containsSub] at h
    simp [countOccur, h]
  | cons c cs ih =>
    intro h
    simp only [containsSub, Bool.or_eq_false_iff] at h
    simp [countOccur, h.1, ih h.2]

theorem containsSub_of_isPrefixOf (p s : Str) (h : p.isPrefixOf s = true) :
    containsSub p s = true := by
  cases s with
  | nil => exact h
  | cons c cs => simp [containsSub, h]

theorem containsSub_cons_of (p : Str) (c : Char) (cs : Str)
    (h : containsSub p cs = true) : containsSub p (c :: cs) = true := by
  simp [containsSub, h]

theorem containsSub_infix (p : Str) :
    ∀ (xs ys : Str), containsSub p (xs ++ (p ++ ys)) = true := by
  intro xs
  induction xs with
  | nil =>
    intro ys
    refine containsSub_of_isPrefixOf p (p ++ ys) ?_
    exact List.isPrefixOf_iff_prefix.mpr (List.prefix_append p ys)
  | cons x xs ih =>
    intro ys
    exact containsSub_cons_of p x (xs ++ (p ++ ys)) (ih ys)

theorem spliceAtGt_append (ins : Str) :
    ∀ (a : Str) (b : Str), '>' ∉ a →
      spliceAtGt ins (a ++ '>' :: b) = some (a ++ (ins ++ '>' :: b)) := by
  intro a
  induction a with
  | nil => intro b _; simp [spliceAtGt]
  | cons x a ih =>
    intro b hx
    have hne : ¬ x = '>' := fun e => hx (e ▸ List.mem_cons_self x a)
    simp only [List.cons_append, spliceAtGt, if_neg hne, List.append_eq,
      ih b (fun h => hx (List.mem_cons_of_mem x h))]
    rfl

theorem replaceSvgTagWith_true_head (ins attrs body : Str) (h : '>' ∉ attrs) :
    replaceSvgTagWith true ins (str "<svg" ++ (attrs ++ '>' :: body))
      = str "<svg" ++ (attrs ++ (ins ++ '>' :: body)) := by
  show replaceSvgTagWith true ins
      ('<' :: 's' :: 'v' :: 'g' :: (attrs ++ '>' :: body)) = _
  have hpre : (str "<svg").isPrefixOf
      ('<' :: 's' :: 'v' :: 'g' :: (attrs ++ '>' :: body)) = true := by
    simp [str, List.isPrefixOf]
  rw [replaceSvgTagWith, if_pos hpre]
  have hdrop : List.drop 3 ('s' :: 'v' :: 'g' :: (attrs ++ '>' :: body))
      = attrs ++ '>' :: body := rfl
  simp only [hdrop, spliceAtGt_append ins attrs body h, if_true]
  rfl

/-- C5: templates already containing a viewBox attribute pass through the
viewport-ensuring step unchanged (never overwritten); a template of the
form of an svg opening tag and body with no viewBox gets exactly one
viewBox attribute, with value "0 0 200 200", inserted into the root
opening tag. -/
theorem claim_C5 :
    (∀ t : Str, containsSub (str "viewBox") t = true → addViewBox t = t)
    ∧ (∀ attrs body : Str, '>' ∉ attrs →
        containsSub (str "viewBox") (str "<svg" ++ (attrs ++ '>' :: body)) = false →
        addViewBox (str "<svg" ++ (attrs ++ '>' :: body))
            = str "<svg" ++ (attrs ++ (viewBoxIns ++ '>' :: body))
          ∧ countOccur (str "viewBox")
              (addViewBox (str "<svg" ++ (attrs ++ '>' :: body))) = 1
          ∧ containsSub (str "viewBox=\"0 0 200 200\"")
              (addViewBox (str "<svg" ++ (attrs ++ '>' :: body))) = true) := by
  constructor
  · intro t h
    simp [addViewBox, h]
  · intro attrs body hgt hvb
    have hout : addViewBox (str "<svg" ++ (attrs ++ '>' :: body))
        = str "<svg" ++ (attrs ++ (viewBoxIns ++ '>' :: body)) := by
      simp only [addViewBox, hvb, Bool.false_eq_true, if_false]
      exact replaceSvgTagWith_true_head viewBoxIns attrs body hgt
    have hzero : countOccur (str "viewBox") (str "<svg" ++ attrs) = 0
        ∧ countOccur (str "viewBox") body = 0 := by
      have h0 := countOccur_of_not_containsSub (str "viewBox") _ hvb
      rw [show str "<svg" ++ (attrs ++ '>' :: body)
            = (str "<svg" ++ attrs) ++ '>' :: body from (List.append_assoc _ _ _).symm,
          countOccur_append_excl (str "viewBox") (str "<svg" ++ attrs) '>' body
            (by decide) (by decide)] at h0
      omega
    refine ⟨hout, ?_, ?_⟩
    · rw [hout]
      rw [show viewBoxIns ++ '>' :: body
            = ' ' :: (str "viewBox=\"0" ++ (' ' :: (str "0" ++ (' ' :: (str "200"
              ++ (' ' :: (str "200\"" ++ '>' :: body))))))) from rfl]
      rw [show str "<svg" ++ (attrs ++ ' ' :: (str "viewBox=\"0" ++ (' ' :: (str "0"
            ++ (' ' :: (str "200" ++ (' ' :: (str "200\"" ++ '>' :: body))))))))
          = (str "<svg" ++ attrs) ++ ' ' :: (str "viewBox=\"0" ++ (' ' :: (str "0"
            ++ (' ' :: (str "200" ++ (' ' :: (str "200\"" ++ '>' :: body)))))))
          from (List.append_assoc _ _ _).symm]
      rw [countOccur_append_excl (str "viewBox") (str "<svg" ++ attrs) ' ' _
        (by decide) (by decide)]
      rw [countOccur_append_excl (str "viewBox") (str "viewBox=\"0") ' ' _
        (by decide) (by decide)]
      rw [countOccur_append_excl (str "viewBox") (str "0") ' ' _
        (by decide) (by decide)]
      rw [countOccur_append_excl (str "viewBox") (str "200") ' ' _
        (by decide) (by decide)]
      rw [countOccur_append_excl (str "viewBox") (str "200\"") '>' body
        (by decide) (by decide)]
      rw [hzero.1, hzero.2]
      decide
    · rw [hout]
      rw [show viewBoxIns ++ '>' :: body
            = [' '] ++ (str "viewBox=\"0 0 200 200\"" ++ '>' :: body) from rfl]
      rw [show attrs ++ ([' '] ++ (str "viewBox=\"0 0 200 200\"" ++ '>' :: body))
            = (attrs ++ [' ']) ++ (str "viewBox=\"0 0 200 200\"" ++ '>' :: body)
          from (List.append_assoc _ _ _).symm]
      rw [show str "<svg" ++ ((attrs ++ [' ']) ++ (str "viewBox=\"0 0 200 200\""
              ++ '>' :: body))
            = (str "<svg" ++ (attrs ++ [' '])) ++ (str "viewBox=\"0 0 200 200\""
              ++ '>' :: body)
          from (List.append_assoc _ _ _).symm]
      exact containsSub_infix _ _ _

/-- C5 witness: the viewport step evaluated on a template that already has
a viewBox (left untouched) and on one that lacks it (exactly one inserted
attribute with the fixed value). -/
theorem claim_C5_witness :
    addViewBox (str "<svg viewBox=\"0 0 5 5\"></svg>")
        = str "<svg viewBox=\"0 0 5 5\"></svg>"
    ∧ (addViewBox (str "<svg" ++ (str " width=\"10\"" ++ '>' :: str "</svg>"))
          = str "<svg" ++ (str " width=\"10\"" ++ (viewBoxIns ++ '>' :: str "</svg>"))
        ∧ countOccur (str "viewBox")
            (addViewBox (str "<svg" ++ (str " width=\"10\"" ++ '>' :: str "</svg>"))) = 1
        ∧ containsSub (str "viewBox=\"0 0 200 200\"")
            (addViewBox (str "<svg" ++ (str " width=\"10\"" ++ '>' :: str "</svg>")))
          = true) :=
  ⟨claim_C5.1 (str "<svg viewBox=\"0 0 5 5\"></svg>") (by decide),
   claim_C5.2 (str " width=\"10\"") (str "</svg>") (by decide) (by decide)⟩

/-! ## Token-format lemmas -/

theorem tokFormat_append (toks : List Str) (a b : Str)
    (ha : TokFormat toks a) (hb : TokFormat toks b) :
    TokFormat toks (a ++ b) := by
  induction ha with
  | nil => simpa using hb
  | lit c t hc _ ih => exact TokFormat.lit c (t ++ b) hc ih
  | tok p t hp _ ih =>
    rw [List.append_assoc]
    exact TokFormat.tok p (t ++ b) hp ih

theorem tokFormat_of_noDollar (toks : List Str) :
    ∀ s : Str, '$' ∉ s → TokFormat toks s := by
  intro s
  induction s with
  | nil => intro _; exact TokFormat.nil
  | cons c cs ih =>
    intro h
    exact TokFormat.lit c cs (fun e => h (e ▸ List.mem_cons_self c cs))
      (ih (fun hm => h (List.mem_cons_of_mem c hm)))

theorem noDollar_of_tokFormat_nil (s : Str) (h : TokFormat [] s) : '$' ∉ s := by
  induction h with
  | nil => simp
  | lit c t hc _ ih =>
    intro hm
    rcases List.mem_cons.mp hm with he | hm
    · exact hc he.symm
    · exact ih hm
  | tok p _ hp _ _ => exact absurd hp (List.not_mem_nil p)

theorem tokFormat_cons_inv (toks : List Str)
    (hds : ∀ p ∈ toks, ∃ q, p = '$' :: q) (c : Char) (s : Str)
    (hc : c ≠ '$') (h : TokFormat toks (c :: s)) : TokFormat toks s := by
  generalize hu : c :: s = u at h
  cases h with
  | nil => exact absurd hu (by simp)
  | lit c' t hc' ht =>
    obtain ⟨rfl, rfl⟩ : c = c' ∧ s = t := by
      injection hu with h1 h2
      exact ⟨h1, h2⟩
    exact ht
  | tok p t hp ht =>
    obtain ⟨q, rfl⟩ := hds p hp
    have he : c = '$' := by
      rw [List.cons_append] at hu
      exact List.head_eq_of_cons_eq hu
    exact absurd he hc

theorem tokFormat_single (toks : List Str) (p : Str) (hp : p ∈ toks) :
    TokFormat toks p := by
  have h := TokFormat.tok p [] hp TokFormat.nil
  rwa [List.append_nil] at h

theorem tokFormat_split_gt (toks : List Str)
    (hds : ∀ p ∈ toks, ∃ q, p = '$' :: q) (hgt : ∀ p ∈ toks, '>' ∉ p) :
    ∀ s : Str, TokFormat toks s → ∀ u w : Str, s = u ++ '>' :: w →
      TokFormat toks u ∧ TokFormat toks w := by
  intro s h
  induction h with
  | nil =>
    intro u w he
    exact absurd he.symm (by simp)
  | lit c t hc ht ih =>
    intro u w he
    cases u with
    | nil =>
      simp only [List.nil_append] at he
      obtain ⟨rfl, rfl⟩ : c = '>' ∧ t = w := by
        injection he with h1 h2
        exact ⟨h1, h2⟩
      exact ⟨TokFormat.nil, ht⟩
    | cons x u' =>
      rw [List.cons_append] at he
      obtain ⟨rfl, ht'⟩ : c = x ∧ t = u' ++ '>' :: w := by
        injection he with h1 h2
        exact ⟨h1, h2⟩
      obtain ⟨hu, hw⟩ := ih u' w ht'
      exact ⟨TokFormat.lit _ _ hc hu, hw⟩
  | tok p t hp ht ih =>
    intro u w he
    rcases List.append_eq_append_iff.mp he with ⟨k, hk1, hk2⟩ | ⟨k, hk1, hk2⟩
    · obtain ⟨hk, hw⟩ := ih k w hk2
      refine ⟨?_, hw⟩
      rw [hk1]
      exact tokFormat_append toks p k (tokFormat_single toks p hp) hk
    · cases k with
      | nil =>
        rw [List.append_nil] at hk1
        simp only [List.nil_append] at hk2
        subst hk1
        refine ⟨tokFormat_single toks p hp, ?_⟩
        rw [← hk2] at ht
        exact tokFormat_cons_inv toks hds '>' w (by decide) ht
      | cons y k' =>
        have hy : y = '>' := by
          rw [List.cons_append] at hk2
          injection hk2 with h1 _
          exact h1.symm
        subst hy
        have hmem : '>' ∈ p := by
          rw [hk1]
          exact List.mem_append.mpr (Or.inr (List.mem_cons_self _ _))
        exact absurd hmem (hgt p hp)

theorem countOccur_zero_of_missing_char (p s : Str) (c : Char)
    (hcp : c ∈ p) (hcs : c ∉ s) : countOccur p s = 0 := by
  induction s with
  | nil =>
    obtain ⟨a, p', rfl⟩ : ∃ a p', p = a :: p' := by
      cases p with
      | nil => exact absurd hcp (List.not_mem_nil c)
      | cons a p' => exact ⟨a, p', rfl⟩
    simp [countOccur, List.isPrefixOf]
  | cons x xs ih =>
    have hpre : p.isPrefixOf (x :: xs) = false := by
      cases hb : p.isPrefixOf (x :: xs) with
      | false => rfl
      | true =>
        have hsub := (List.isPrefixOf_iff_prefix.mp hb).subset hcp
        exact absurd hsub hcs
    simp only [countOccur, hpre, Bool.false_eq_true, if_false]
    rw [ih (fun hm => hcs (List.mem_cons_of_mem x hm))]

theorem noToks_of_noDollar (s : Str) (h : '$' ∉ s) : noToks s :=
  ⟨countOccur_zero_of_missing_char _ s '$' (by decide) h,
   countOccur_zero_of_missing_char _ s '$' (by decide) h,
   countOccur_zero_of_missing_char _ s '$' (by decide) h⟩

theorem noDollar_append (a b : Str) (ha : '$' ∉ a) (hb : '$' ∉ b) :
    '$' ∉ a ++ b := by
  intro hm
  rcases List.mem_append.mp hm with h | h
  · exact ha h
  · exact hb h

theorem noDollar_natToDecimal (n : Nat) : '$' ∉ natToDecimal n := by
  intro hm
  have := mem_natToDecimal_digit n '$' hm
  exact absurd this (by decide)

theorem dollarFree_not_mem (s : Str) (h : dollarFree s = true) : '$' ∉ s := by
  intro hm
  simp only [dollarFree, Bool.not_eq_true'] at h
  have := List.elem_iff.mpr hm
  rw [show List.elem '$' s = s.contains '$' from rfl] at this
  rw [h] at this
  cases this

theorem replaceAll_append_noDollar (p rep : Str) (q0 : Str) (hp : p = '$' :: q0) :
    ∀ (u t : Str), '$' ∉ u →
      replaceAll p rep (u ++ t) = u ++ replaceAll p rep t := by
  intro u
  induction u with
  | nil => intro t _; simp
  | cons x u' ih =>
    intro t hx
    have hxd : ¬ x = '$' := fun e => hx (e ▸ List.mem_cons_self x u')
    rw [List.cons_append, replaceAll_cons]
    have hpre : p.isPrefixOf (x :: (u' ++ t)) = false := by
      rw [hp]
      have hbe : ('$' == x) = false :=
        beq_eq_false_iff_ne.mpr (fun e => hxd e.symm)
      simp [List.isPrefixOf, hbe]
    simp only [hpre, Bool.false_and, Bool.false_eq_true, if_false]
    rw [ih t (fun hm => hx (List.mem_cons_of_mem x hm))]
    rfl

theorem tokFormat_replaceAll (toks toks' : List Str) (p : Str)
    (hds : ∀ r ∈ toks, ∃ q, r = '$' :: q ∧ '$' ∉ q)
    (hp : p ∈ toks)
    (hsub : ∀ r ∈ toks, r ≠ p → r ∈ toks')
    (hcmp : ∀ r ∈ toks, r ≠ p → ¬ (p <+: r) ∧ ¬ (r <+: p))
    (rep : Str) (hrep : '$' ∉ rep) :
    ∀ s, TokFormat toks s → TokFormat toks' (replaceAll p rep s) := by
  intro s h
  induction h with
  | nil =>
    rw [replaceAll_nil]
    exact TokFormat.nil
  | lit c t hc _ ih =>
    rw [replaceAll_cons]
    have hpre : p.isPrefixOf (c :: t) = false := by
      obtain ⟨q, hq, _⟩ := hds p hp
      rw [hq]
      have hbe : ('$' == c) = false :=
        beq_eq_false_iff_ne.mpr (fun e => hc e.symm)
      simp [List.isPrefixOf, hbe]
    simp only [hpre, Bool.false_and, Bool.false_eq_true, if_false]
    exact TokFormat.lit _ _ hc ih
  | tok r t hr _ ih =>
    by_cases hrp : r = p
    · subst hrp
      obtain ⟨q, hq, _⟩ := hds r hr
      have hstep : replaceAll r rep (r ++ t) = rep ++ replaceAll r rep t := by
        have h1 : r ++ t = '$' :: (q ++ t) := by rw [hq]; rfl
        rw [h1, replaceAll_cons]
        have hpre : r.isPrefixOf ('$' :: (q ++ t)) = true := by
          rw [show ('$' : Char) :: (q ++ t) = r ++ t from h1.symm]
          exact List.isPrefixOf_iff_prefix.mpr (List.prefix_append r t)
        have hne : (!r.isEmpty) = true := by rw [hq]; rfl
        simp only [hpre, hne, Bool.and_self, if_true]
        rw [show r.length - 1 = q.length from by rw [hq]; simp, List.drop_left]
      rw [hstep]
      exact tokFormat_append toks' rep _ (tokFormat_of_noDollar toks' rep hrep) ih
    · obtain ⟨q, hq, hqd⟩ := hds r hr
      have hnomatch : p.isPrefixOf (r ++ t) = false := by
        cases hb : p.isPrefixOf (r ++ t) with
        | false => rfl
        | true =>
          have hpf := List.isPrefixOf_iff_prefix.mp hb
          have hrf := List.prefix_append r t
          rcases List.prefix_or_prefix_of_prefix hpf hrf with hh | hh
          · exact absurd hh (hcmp r hr hrp).1
          · exact absurd hh (hcmp r hr hrp).2
      have hkey : replaceAll p rep (r ++ t) = r ++ replaceAll p rep t := by
        have h1 : r ++ t = '$' :: (q ++ t) := by rw [hq]; rfl
        rw [h1, replaceAll_cons]
        have hpre : p.isPrefixOf ('$' :: (q ++ t)) = false := by
          rw [show ('$' : Char) :: (q ++ t) = r ++ t from h1.symm]
          exact hnomatch
        simp only [hpre, Bool.false_and, Bool.false_eq_true, if_false]
        obtain ⟨q0, hq0, _⟩ := hds p hp
        rw [replaceAll_append_noDollar p rep q0 hq0 q t hqd, hq]
        rfl
      rw [hkey]
      exact TokFormat.tok r _ (hsub r hr hrp) ih

theorem replaceSvgTagWith_cons (mode : Bool) (ins : Str) (c : Char) (cs : Str) :
    replaceSvgTagWith mode ins (c :: cs)
      = if (str "<svg").isPrefixOf (c :: cs) then
          match (if mode then spliceAtGt ins (List.drop 3 cs)
                 else spliceAfterGt ins (List.drop 3 cs)) with
          | some r => '<' :: 's' :: 'v' :: 'g' :: r
          | none => c :: replaceSvgTagWith mode ins cs
        else c :: replaceSvgTagWith mode ins cs := rfl

theorem spliceAtGt_eq_some (ins : Str) :
    ∀ (v r : Str), spliceAtGt ins v = some r →
      ∃ a b, v = a ++ '>' :: b ∧ '>' ∉ a ∧ r = a ++ (ins ++ '>' :: b) := by
  intro v
  induction v with
  | nil => intro r h; exact absurd h (by simp [spliceAtGt])
  | cons c cs ih =>
    intro r h
    by_cases hc : c = '>'
    · subst hc
      rw [spliceAtGt, if_pos rfl] at h
      refine ⟨[], cs, rfl, by simp, ?_⟩
      injection h with h1
      rw [← h1]
      rfl
    · rw [spliceAtGt, if_neg hc] at h
      cases hs : spliceAtGt ins cs with
      | none => rw [hs] at h; exact absurd h (by simp)
      | some r' =>
        rw [hs] at h
        obtain ⟨a, b, hv, ha, hr⟩ := ih r' hs
        have hrr : r = c :: r' := by
          injection h with h1
          exact h1.symm
        refine ⟨c :: a, b, by rw [hv]; rfl, ?_, by rw [hrr, hr]; rfl⟩
        intro hm
        rcases List.mem_cons.mp hm with he | hm'
        · exact hc he.symm
        · exact ha hm'

theorem spliceAfterGt_eq_some (ins : Str) :
    ∀ (v r : Str), spliceAfterGt ins v = some r →
      ∃ a b, v = a ++ '>' :: b ∧ '>' ∉ a ∧ r = a ++ '>' :: (ins ++ b) := by
  intro v
  induction v with
  | nil => intro r h; exact absurd h (by simp [spliceAfterGt])
  | cons c cs ih =>
    intro r h
    by_cases hc : c = '>'
    · subst hc
      rw [spliceAfterGt, if_pos rfl] at h
      refine ⟨[], cs, rfl, by simp, ?_⟩
      injection h with h1
      rw [← h1]
      rfl
    · rw [spliceAfterGt, if_neg hc] at h
      cases hs : spliceAfterGt ins cs with
      | none => rw [hs] at h; exact absurd h (by simp)
      | some r' =>
        rw [hs] at h
        obtain ⟨a, b, hv, ha, hr⟩ := ih r' hs
        have hrr : r = c :: r' := by
          injection h with h1
          exact h1.symm
        refine ⟨c :: a, b, by rw [hv]; rfl, ?_, by rw [hrr, hr]; rfl⟩
        intro hm
        rcases List.mem_cons.mp hm with he | hm'
        · exact hc he.symm
        · exact ha hm'

theorem replaceSvgTagWith_cases (mode : Bool) (ins : Str) :
    ∀ s : Str, replaceSvgTagWith mode ins s = s
      ∨ ∃ u a b, s = u ++ (str "<svg" ++ (a ++ '>' :: b)) ∧ '>' ∉ a
          ∧ replaceSvgTagWith mode ins s
            = u ++ (str "<svg"
                ++ (a ++ (if mode then ins ++ '>' :: b else '>' :: (ins ++ b)))) := by
  intro s
  induction s with
  | nil => left; rfl
  | cons c cs ih =>
    have hlift : (c :: replaceSvgTagWith mode ins cs = c :: cs)
        ∨ ∃ u a b, c :: cs = u ++ (str "<svg" ++ (a ++ '>' :: b)) ∧ '>' ∉ a
            ∧ c :: replaceSvgTagWith mode ins cs
              = u ++ (str "<svg"
                  ++ (a ++ (if mode then ins ++ '>' :: b else '>' :: (ins ++ b)))) := by
      rcases ih with he | ⟨u, a, b, hs, ha, he⟩
      · left; rw [he]
      · right
        refine ⟨c :: u, a, b, by rw [hs]; rfl, ha, ?_⟩
        rw [he]
        exact (List.cons_append _ _ _).symm
    by_cases hpre : (str "<svg").isPrefixOf (c :: cs) = true
    · obtain ⟨rest, hrest⟩ : ∃ rest, c :: cs = str "<svg" ++ rest := by
        obtain ⟨rest, hr⟩ := List.isPrefixOf_iff_prefix.mp hpre
        exact ⟨rest, hr.symm⟩
      have hcs : cs = 's' :: 'v' :: 'g' :: rest := by
        have h2 : ('<' :: 's' :: 'v' :: 'g' :: rest : Str) = c :: cs := hrest.symm
        exact (List.tail_eq_of_cons_eq h2).symm
      have hdrop : List.drop 3 cs = rest := by rw [hcs]; rfl
      cases mode with
      | true =>
        cases hsp : spliceAtGt ins rest with
        | some r =>
          obtain ⟨a, b, hv, ha, hr⟩ := spliceAtGt_eq_some ins rest r hsp
          right
          refine ⟨[], a, b, by rw [hrest, hv]; rfl, ha, ?_⟩
          rw [replaceSvgTagWith_cons, if_pos hpre]
          simp only [hdrop, if_true, hsp]
          rw [hr]
          rfl
        | none =>
          rcases hlift with he | ⟨u, a, b, hs, ha, he⟩
          · left
            rw [replaceSvgTagWith_cons, if_pos hpre]
            simp only [hdrop, if_true, hsp]
            exact he
          · right
            refine ⟨u, a, b, hs, ha, ?_⟩
            rw [replaceSvgTagWith_cons, if_pos hpre]
            simp only [hdrop, if_true, hsp]
            exact he
      | false =>
        cases hsp : spliceAfterGt ins rest with
        | some r =>
          obtain ⟨a, b, hv, ha, hr⟩ := spliceAfterGt_eq_some ins rest r hsp
          right
          refine ⟨[], a, b, by rw [hrest, hv]; rfl, ha, ?_⟩
          rw [replaceSvgTagWith_cons, if_pos hpre]
          simp only [hdrop, if_false, hsp]
          rw [hr]
          rfl
        | none =>
          rcases hlift with he | ⟨u, a, b, hs, ha, he⟩
          · left
            rw [replaceSvgTagWith_cons, if_pos hpre]
            simp only [hdrop, if_false, hsp]
            exact he
          · right
            refine ⟨u, a, b, hs, ha, ?_⟩
            rw [replaceSvgTagWith_cons, if_pos hpre]
            simp only [hdrop, if_false, hsp]
            exact he
    · have hrw : replaceSvgTagWith mode ins (c :: cs)
          = c :: replaceSvgTagWith mode ins cs := by
        rw [replaceSvgTagWith_cons, if_neg hpre]
      rcases hlift with he | ⟨u, a, b, hs, ha, he⟩
      · left; rw [hrw]; exact he
      · right
        exact ⟨u, a, b, hs, ha, by rw [hrw]; exact he⟩

theorem tokFormat_replaceSvgTagWith (toks : List Str)
    (hds : ∀ p ∈ toks, ∃ q, p = '$' :: q) (hgt : ∀ p ∈ toks, '>' ∉ p)
    (mode : Bool) (ins : Str) (hins : '$' ∉ ins)
    (s : Str) (h : TokFormat toks s) :
    TokFormat toks (replaceSvgTagWith mode ins s) := by
  rcases replaceSvgTagWith_cases mode ins s with he | ⟨u, a, b, hs, _, he⟩
  · rwa [he]
  · rw [he]
    have hs' : s = (u ++ (str "<svg" ++ a)) ++ '>' :: b := by
      rw [hs, List.append_assoc, List.append_assoc]
    obtain ⟨hu, hb⟩ := tokFormat_split_gt toks hds hgt s h _ _ hs'
    have hout : TokFormat toks ((u ++ (str "<svg" ++ a))
        ++ (if mode then ins ++ '>' :: b else '>' :: (ins ++ b))) := by
      refine tokFormat_append toks _ _ hu ?_
      cases mode with
      | true =>
        simp only [if_true]
        exact tokFormat_append toks ins _ (tokFormat_of_noDollar toks ins hins)
          (TokFormat.lit '>' b (by decide) hb)
      | false =>
        simp only [Bool.false_eq_true, if_false]
        exact TokFormat.lit '>' _ (by decide)
          (tokFormat_append toks ins b (tokFormat_of_noDollar toks ins hins) hb)
    have hre : u ++ (str "<svg"
          ++ (a ++ (if mode then ins ++ '>' :: b else '>' :: (ins ++ b))))
        = (u ++ (str "<svg" ++ a))
          ++ (if mode then ins ++ '>' :: b else '>' :: (ins ++ b)) := by
      rw [List.append_assoc, List.append_assoc]
    rwa [hre]

theorem tokFormat_addViewBox (toks : List Str)
    (hds : ∀ p ∈ toks, ∃ q, p = '$' :: q) (hgt : ∀ p ∈ toks, '>' ∉ p)
    (t : Str) (h : TokFormat toks t) : TokFormat toks (addViewBox t) := by
  unfold addViewBox
  split
  · exact h
  · exact tokFormat_replaceSvgTagWith toks hds hgt true viewBoxIns (by decide) t h

theorem tokFormatChk_cons (toks : List Str) (c : Char) (cs : Str)
    (h : tokFormatChk toks (c :: cs) = true) : tokFormatChk toks cs = true := by
  simp only [tokFormatChk, Bool.and_eq_true] at h
  exact h.2

theorem tokFormatChk_drop (toks : List Str) :
    ∀ (k : Nat) (s : Str), tokFormatChk toks s = true →
      tokFormatChk toks (List.drop k s) = true := by
  intro k
  induction k with
  | zero => intro s h; exact h
  | succ k ih =>
    intro s h
    cases s with
    | nil => exact h
    | cons c cs =>
      rw [List.drop_succ_cons]
      exact ih cs (tokFormatChk_cons toks c cs h)

theorem tokFormat_of_chk (toks : List Str)
    (hds : ∀ p ∈ toks, ∃ q, p = '$' :: q) :
    ∀ (n : Nat) (s : Str), s.length ≤ n → tokFormatChk toks s = true →
      TokFormat toks s := by
  intro n
  induction n with
  | zero =>
    intro s hl _
    rw [List.length_eq_zero.mp (Nat.le_zero.mp hl)]
    exact TokFormat.nil
  | succ n ih =>
    intro s hl h
    cases s with
    | nil => exact TokFormat.nil
    | cons c cs =>
      have hc2 : tokFormatChk toks cs = true := tokFormatChk_cons toks c cs h
      have hlcs : cs.length ≤ n := by
        simp only [List.length_cons] at hl
        omega
      by_cases hc : c = '$'
      · subst hc
        simp only [tokFormatChk, if_pos rfl, Bool.and_eq_true] at h
        obtain ⟨p, hptoks, hppre⟩ := List.any_eq_true.mp h.1
        obtain ⟨rest, hrest⟩ := List.isPrefixOf_iff_prefix.mp hppre
        obtain ⟨q, hq⟩ := hds p hptoks
        have hqr : q ++ rest = cs := by
          rw [hq] at hrest
          exact List.tail_eq_of_cons_eq hrest
        have hlen : rest.length ≤ n := by
          have h1 := congrArg List.length hqr
          rw [List.length_append] at h1
          omega
        have hchkrest : tokFormatChk toks rest = true := by
          have hr2 : rest = List.drop q.length cs := by
            rw [← hqr, List.drop_left]
          rw [hr2]
          exact tokFormatChk_drop toks q.length cs hc2
        have htf : TokFormat toks (p ++ rest) :=
          TokFormat.tok p rest hptoks (ih rest hlen hchkrest)
        rwa [hrest] at htf
      · exact TokFormat.lit c cs hc (ih cs hlcs hc2)

/-! ## Facts about the concrete placeholder tokens -/

theorem placeholderToks_dollar : ∀ p ∈ placeholderToks, ∃ q, p = '$' :: q := by
  intro p hp
  fin_cases hp
  · exact ⟨str "{color}", rfl⟩
  · exact ⟨str "{width}", rfl⟩
  · exact ⟨str "{height}", rfl⟩

theorem toksWH_dollar :
    ∀ p ∈ [str "${width}", str "${height}"], ∃ q, p = '$' :: q ∧ '$' ∉ q := by
  intro p hp
  fin_cases hp
  · exact ⟨str "{width}", rfl, by decide⟩
  · exact ⟨str "{height}", rfl, by decide⟩

theorem toksAll_dollar :
    ∀ p ∈ placeholderToks, ∃ q, p = '$' :: q ∧ '$' ∉ q := by
  intro p hp
  fin_cases hp
  · exact ⟨str "{color}", rfl, by decide⟩
  · exact ⟨str "{width}", rfl, by decide⟩
  · exact ⟨str "{height}", rfl, by decide⟩

theorem toksH_dollar :
    ∀ p ∈ [str "${height}"], ∃ q, p = '$' :: q ∧ '$' ∉ q := by
  intro p hp
  fin_cases hp
  exact ⟨str "{height}", rfl, by decide⟩

theorem placeholderToks_gt : ∀ p ∈ placeholderToks, '>' ∉ p := by
  intro p hp
  fin_cases hp <;> decide

/-! ## Dollar-freedom of the substituted values -/

theorem dollarFree_not_mem_conv (s : Str) (h : '$' ∉ s) : dollarFree s = true := by
  simp only [dollarFree, Bool.not_eq_true']
  cases hb : s.contains '$' with
  | false => rfl
  | true => exact absurd (List.elem_iff.mp hb) h

theorem mergeStr_dollarFree (v : Option Str) (d : Str) (hd : '$' ∉ d)
    (hv : (match v with | none => true | some s => dollarFree s) = true) :
    '$' ∉ mergeStrField v d := by
  cases v with
  | none => exact hd
  | some s =>
    simp only [mergeStrField]
    split
    · exact hd
    · exact dollarFree_not_mem s hv

theorem merged_dollarFree (o : SVGOptions) (ho : dollarFreeOpts o = true) :
    '$' ∉ (getMergedOptions o).color
    ∧ '$' ∉ (getMergedOptions o).gradientStartColor
    ∧ '$' ∉ (getMergedOptions o).gradientStopColor := by
  simp only [dollarFreeOpts, Bool.and_eq_true] at ho
  exact ⟨mergeStr_dollarFree o.color _ (by decide) ho.1.1,
    mergeStr_dollarFree o.gradientStartColor _ (by decide) ho.1.2,
    mergeStr_dollarFree o.gradientStopColor _ (by decide) ho.2⟩

theorem noDollar_sizeSubst (n : Nat) : '$' ∉ sizeSubst n := by
  unfold sizeSubst
  split
  · decide
  · exact noDollar_natToDecimal n

theorem noDollar_gradId (n : Nat) : '$' ∉ gradId n :=
  noDollar_append _ _ (by decide) (noDollar_natToDecimal n)

theorem noDollar_urlFill (n : Nat) : '$' ∉ urlFill n :=
  noDollar_append _ _ (noDollar_append _ _ (by decide) (noDollar_gradId n))
    (by decide)

theorem noDollar_gradDefBlock (gid s1 s2 : Str) (hg : '$' ∉ gid)
    (h1 : '$' ∉ s1) (h2 : '$' ∉ s2) : '$' ∉ gradDefBlock gid s1 s2 := by
  refine noDollar_append _ _ ?_ (by decide)
  refine noDollar_append _ _ ?_ h2
  refine noDollar_append _ _ ?_ (by decide)
  refine noDollar_append _ _ ?_ h1
  refine noDollar_append _ _ ?_ (by decide)
  exact noDollar_append _ _ (by decide) hg

/-! ## No unreplaced tokens in one render -/

theorem renderSvg_noToks (t : Str) (m : MergedSVGOptions) (c : Nat)
    (ht : TokFormat placeholderToks t)
    (hcol : '$' ∉ m.color)
    (h1 : '$' ∉ m.gradientStartColor) (h2 : '$' ∉ m.gradientStopColor) :
    noToks (renderSvg t m c).1 := by
  have hfill : '$' ∉ (if m.gradient then urlFill c else m.color) := by
    split
    · exact noDollar_urlFill c
    · exact hcol
  have hgdef : '$' ∉ (if m.gradient then
      gradDefBlock (gradId c) m.gradientStartColor m.gradientStopColor else []) := by
    split
    · exact noDollar_gradDefBlock _ _ _ (noDollar_gradId c) h1 h2
    · simp
  have s0 : TokFormat placeholderToks (addViewBox t) :=
    tokFormat_addViewBox placeholderToks placeholderToks_dollar placeholderToks_gt t ht
  have s1 : TokFormat placeholderToks
      (replaceSvgTagWith false
        (if m.gradient then
          gradDefBlock (gradId c) m.gradientStartColor m.gradientStopColor else [])
        (addViewBox t)) :=
    tokFormat_replaceSvgTagWith placeholderToks placeholderToks_dollar
      placeholderToks_gt false _ hgdef _ s0
  have s2 : TokFormat [str "${width}", str "${height}"]
      (replaceAll (str "${color}") (if m.gradient then urlFill c else m.color)
        (replaceSvgTagWith false
          (if m.gradient then
            gradDefBlock (gradId c) m.gradientStartColor m.gradientStopColor else [])
          (addViewBox t))) := by
    refine tokFormat_replaceAll placeholderToks _ (str "${color}") toksAll_dollar
      (by exact List.mem_cons_self _ _) ?_ ?_ _ hfill _ s1
    · intro r hr hne
      fin_cases hr
      · exact absurd rfl hne
      · exact List.mem_cons_self _ _
      · exact List.mem_cons_of_mem _ (List.mem_cons_self _ _)
    · intro r hr hne
      fin_cases hr
      · exact absurd rfl hne
      · exact ⟨by decide, by decide⟩
      · exact ⟨by decide, by decide⟩
  have s3 : TokFormat [str "${height}"]
      (replaceAll (str "${width}") (sizeSubst m.size)
        (replaceAll (str "${color}") (if m.gradient then urlFill c else m.color)
          (replaceSvgTagWith false
            (if m.gradient then
              gradDefBlock (gradId c) m.gradientStartColor m.gradientStopColor
            else [])
            (addViewBox t)))) := by
    refine tokFormat_replaceAll _ _ (str "${width}") toksWH_dollar
      (by exact List.mem_cons_self _ _) ?_ ?_ _ (noDollar_sizeSubst m.size) _ s2
    · intro r hr hne
      fin_cases hr
      · exact absurd rfl hne
      · exact List.mem_cons_self _ _
    · intro r hr hne
      fin_cases hr
      · exact absurd rfl hne
      · exact ⟨by decide, by decide⟩
  have s4 : TokFormat ([] : List Str)
      (replaceAll (str "${height}") (sizeSubst m.size)
        (replaceAll (str "${width}") (sizeSubst m.size)
          (replaceAll (str "${color}") (if m.gradient then urlFill c else m.color)
            (replaceSvgTagWith false
              (if m.gradient then
                gradDefBlock (gradId c) m.gradientStartColor m.gradientStopColor
              else [])
              (addViewBox t))))) := by
    refine tokFormat_replaceAll _ _ (str "${height}") toksH_dollar
      (by exact List.mem_cons_self _ _) ?_ ?_ _ (noDollar_sizeSubst m.size) _ s3
    · intro r hr hne
      fin_cases hr
      exact absurd rfl hne
    · intro r hr hne
      fin_cases hr
      exact absurd rfl hne
  exact noToks_of_noDollar _ (noDollar_of_tokFormat_nil _ s4)

theorem pairAt_dollarFree :
    ∀ j : Fin 8, dollarFree (pairAt j).1 = true
      ∧ dollarFree (pairAt j).2.1 = true ∧ dollarFree (pairAt j).2.2 = true := by
  decide

theorem renderAllA_noToks (m : MergedSVGOptions)
    (hcol : '$' ∉ m.color) (h1 : '$' ∉ m.gradientStartColor)
    (h2 : '$' ∉ m.gradientStopColor) :
    ∀ (ts : List Str), (∀ t ∈ ts, TokFormat placeholderToks t) →
      ∀ (c : Nat) (out : Str), out ∈ (renderAllA m c ts).1 → noToks out := by
  intro ts
  induction ts with
  | nil => intro _ c out h; exact absurd h (List.not_mem_nil out)
  | cons t ts ih =>
    intro hts c out h
    rcases List.mem_cons.mp h with rfl | h
    · exact renderSvg_noToks t m c (hts t (List.mem_cons_self t ts)) hcol h1 h2
    · exact ih (fun u hu => hts u (List.mem_cons_of_mem t hu)) _ out h

theorem renderAllB_noToks (rand : Nat → Fin 8) (sz : Option Nat) :
    ∀ (ts : List Str), (∀ t ∈ ts, TokFormat placeholderToks t) →
      ∀ (i c : Nat) (out : Str), out ∈ (renderAllB rand sz i c ts).1 → noToks out := by
  intro ts
  induction ts with
  | nil => intro _ i c out h; exact absurd h (List.not_mem_nil out)
  | cons t ts ih =>
    intro hts i c out h
    rcases List.mem_cons.mp h with rfl | h
    · refine renderSvg_noToks t (getMergedOptions
        { id := none, color := some (pairAt (rand i)).1
        , size := some (jsSizeOr sz), gradient := some true
        , gradientStartColor := some (pairAt (rand i)).2.1
        , gradientStopColor := some (pairAt (rand i)).2.2 }) c
        (hts t (List.mem_cons_self t ts)) ?_ ?_ ?_
      · exact mergeStr_dollarFree (some (pairAt (rand i)).1) (str "blue")
          (by decide) (pairAt_dollarFree (rand i)).1
      · exact mergeStr_dollarFree (some (pairAt (rand i)).2.1) (str "blue")
          (by decide) (pairAt_dollarFree (rand i)).2.1
      · exact mergeStr_dollarFree (some (pairAt (rand i)).2.2) (str "lightblue")
          (by decide) (pairAt_dollarFree (rand i)).2.2
    · exact ih (fun u hu => hts u (List.mem_cons_of_mem t hu)) _ _ out h

theorem getSvgById_ok_mem (svgs : List Str) (o : SVGOptions) (c : Nat)
    (out : Str) (c2 : Nat) (h : getSvgById svgs o c = (Except.ok out, c2)) :
    ∃ t ∈ svgs, out = (renderSvg t (getMergedOptions o) c).1 := by
  unfold getSvgById at h
  split at h
  · exact absurd (congrArg Prod.fst h) (by simp)
  · split at h
    · exact absurd (congrArg Prod.fst h) (by simp)
    · split at h
      · exact absurd (congrArg Prod.fst h) (by simp)
      · split at h
        · exact absurd (congrArg Prod.fst h) (by simp)
        · split at h
          · exact absurd (congrArg Prod.fst h) (by simp)
          · rename_i t heq
            refine ⟨t, List.get?_mem heq, ?_⟩
            have h1 := congrArg Prod.fst h
            simpa using h1.symm

/-- C9: for options whose color values carry no placeholder syntax and
templates whose tokens follow the template format, the markup produced by
getRandomSvg, by getSvgById on success, and each element produced by
getAllSvgs contains no unreplaced occurrence of any placeholder token
(every occurrence was substituted by the fill value or the resolved size
string in the shared substitution step). -/
theorem claim_C9 (svgs : List Str) (o : SVGOptions)
    (hsvgs : ∀ t ∈ svgs, TokFormat placeholderToks t)
    (ho : dollarFreeOpts o = true) :
    (∀ (pick c : Nat) (out : Str),
      (getRandomSvg svgs pick o c).1 = some out → noToks out)
    ∧ (∀ (c : Nat) (out : Str) (c2 : Nat),
        getSvgById svgs o c = (Except.ok out, c2) → noToks out)
    ∧ (∀ (rand : Nat → Fin 8) (c : Nat) (oo : Option SVGOptions),
        (oo = none ∨ oo = some o) →
        ∀ out ∈ (getAllSvgs svgs rand oo c).1, noToks out) := by
  obtain ⟨hm1, hm2, hm3⟩ := merged_dollarFree o ho
  refine ⟨?_, ?_, ?_⟩
  · intro pick c out h
    unfold getRandomSvg at h
    cases hg : svgs.get? pick with
    | none => rw [hg] at h; exact absurd h (by simp)
    | some t =>
      rw [hg] at h
      simp only [Option.some.injEq] at h
      rw [← h]
      exact renderSvg_noToks t _ c (hsvgs t (List.get?_mem hg)) hm1 hm2 hm3
  · intro c out c2 h
    obtain ⟨t, htm, hout⟩ := getSvgById_ok_mem svgs o c out c2 h
    rw [hout]
    exact renderSvg_noToks t _ c (hsvgs t htm) hm1 hm2 hm3
  · intro rand c oo hoo out hmem
    rcases hoo with rfl | rfl
    · have hb : getAllSvgs svgs rand none c = renderAllB rand none 0 c svgs := rfl
      rw [hb] at hmem
      exact renderAllB_noToks rand none svgs hsvgs 0 c out hmem
    · by_cases hbr : branchA (some o) = true
      · have hb : getAllSvgs svgs rand (some o) c
            = renderAllA (getMergedOptions o) c svgs := by
          unfold getAllSvgs
          rw [if_pos hbr]
          rfl
        rw [hb] at hmem
        exact renderAllA_noToks (getMergedOptions o) hm1 hm2 hm3 svgs hsvgs c out hmem
      · have hb : getAllSvgs svgs rand (some o) c
            = renderAllB rand o.size 0 c svgs := by
          unfold getAllSvgs
          rw [if_neg hbr]
        rw [hb] at hmem
        exact renderAllB_noToks rand o.size svgs hsvgs 0 c out hmem

/-- C9 witness: no unreplaced tokens in a concrete render of a well-formed
template with concrete valid options. -/
theorem claim_C9_witness :
    (getRandomSvg [str "<svg width=\"${width}\">${color}</svg>"] 0
        { color := some (str "red") } 0).1
      = some ((renderSvg (str "<svg width=\"${width}\">${color}</svg>")
          (getMergedOptions { color := some (str "red") }) 0).1)
    ∧ noToks ((renderSvg (str "<svg width=\"${width}\">${color}</svg>")
        (getMergedOptions { color := some (str "red") }) 0).1) := by
  have hs : ∀ t ∈ [str "<svg width=\"${width}\">${color}</svg>"],
      TokFormat placeholderToks t := by
    intro t htm
    rw [List.mem_singleton] at htm
    subst htm
    exact tokFormat_of_chk placeholderToks placeholderToks_dollar
      (str "<svg width=\"${width}\">${color}</svg>").length _ (le_refl _) (by decide)
  exact ⟨rfl,
    (claim_C9 [str "<svg width=\"${width}\">${color}</svg>"]
      { color := some (str "red") } hs (by decide)).1 0 0 _ rfl⟩
